import Mathlib

/-!
# Verification of the semgrep project-configuration discovery and merge core

Shallow embedding of the CLI's layered configuration mechanism
(`ProjectConfig` with `_find_all_config_files`, `load_all`, `to_dict`) and of
`JsonFormatter.format` (src/cli/src/semgrep/formatter/json.py).

`semgrep/project.py` itself is not among the provided sources; its behaviour is
reconstructed from the specification and pinned down by the unit tests in
src/cli/tests/unit/test_project_config.py, which are authoritative where they
speak (in particular on the reserved filename `.semgrepconfig` and on the
metadata-merge semantics of `load_all`).

Paths are modelled as lists of path components; the filesystem is modelled as a
decidable predicate telling which file paths exist, together with a content map
from file paths to raw documents.
-/

/-- One element of a configuration file's `tags` array: either a bare scalar
string, or a single-key associative pair (a named tag with a value). -/
inductive TagEntry where
  | scalar (s : String)
  | pair (k v : String)
deriving DecidableEq, Repr

/-- Modelled from the spec: the raw `tags` field of a parsed configuration
document — either an array of tag entries, or some non-array value (which is a
schema violation). `semgrep/project.py` is not under the provided sources. -/
inductive RawTags where
  | arr (entries : List TagEntry)
  | notArray
deriving DecidableEq, Repr

/-- Modelled from the spec: the raw content of one configuration file —
either a malformed document, or a well-formed associative document whose
recognized top-level key is `tags` (possibly absent). -/
inductive RawDoc where
  | malformed
  | doc (tags : Option RawTags)
deriving DecidableEq, Repr

/-- Error raised when a discovered file fails to parse as a structured
document, or its `tags` field (when present) is not an array. -/
inductive ConfigParseError where
  | malformedDocument
  | tagsNotArray
deriving DecidableEq, Repr

/-- The parsed metadata of one configuration file, restricted to the recognized
key `tags`: `none` when the document has no `tags` key. -/
abbrev ConfigDocument : Type := Option (List TagEntry)

/-- The merged result: an associative structure holding the single recognized
key `tags` (`none` when no discovered file defined it). -/
structure ProjectConfig where
  metadata : Option (List TagEntry)
deriving DecidableEq, Repr

namespace ProjectConfig

/-- The reserved per-directory configuration filename, as asserted by
test_projectconfig__find_all_config_files_basic. -/
def FILE_NAME : String := ".semgrepconfig"

/-- The merged tag sequence of a `ProjectConfig` (empty when the `tags` key is
absent from the merged metadata). -/
def tags (c : ProjectConfig) : List TagEntry := c.metadata.getD []

/-- Modelled from the spec: parsing one configuration file
(`ProjectConfig.load_from_file`, not under the provided sources).  A malformed
document is a hard `ConfigParseError`; a present `tags` field that is not an
array is a hard `ConfigParseError`; a well-formed document with no `tags` key
parses to a document contributing no `tags` entry. -/
def load_from_file : RawDoc → Except ConfigParseError ConfigDocument
  | RawDoc.malformed => Except.error ConfigParseError.malformedDocument
  | RawDoc.doc none => Except.ok none
  | RawDoc.doc (some (RawTags.arr entries)) => Except.ok (some entries)
  | RawDoc.doc (some RawTags.notArray) => Except.error ConfigParseError.tagsNotArray

/-- One step of the metadata merge `all_metadata = \x7b**all_metadata, **doc\x7d`
restricted to the recognized key `tags`: a document that defines `tags`
replaces the accumulated value, a document without `tags` leaves it unchanged.
The replacement (rather than concatenation) semantics is asserted by
test_projectconfig_load_all_monorepo. -/
def merge_metadata (acc : Option (List TagEntry)) (d : ConfigDocument) :
    Option (List TagEntry) :=
  match d with
  | some ts => some ts
  | none => acc

/-- Merge a discovery-ordered list of parsed documents into the final metadata. -/
def merge_all (docs : List ConfigDocument) : Option (List TagEntry) :=
  docs.foldl merge_metadata none

/-- Parse a discovery-ordered list of raw configuration files in order; the
first parse failure aborts the whole operation. -/
def parse_all : List RawDoc → Except ConfigParseError (List ConfigDocument)
  | [] => Except.ok []
  | r :: rest =>
    match load_from_file r with
    | Except.error e => Except.error e
    | Except.ok d =>
      match parse_all rest with
      | Except.error e => Except.error e
      | Except.ok ds => Except.ok (d :: ds)

/-- Load and merge a discovery-ordered list of raw configuration files: parse
each in order (any parse failure aborts the whole operation) and fold the
metadata merge over the parsed documents. -/
def load_all_docs (raws : List RawDoc) : Except ConfigParseError ProjectConfig :=
  (parse_all raws).map fun docs => ⟨merge_all docs⟩

end ProjectConfig

/-- A directory path, as its list of path components from the filesystem root. -/
def Dir : Type := List String

/-- Modelled from the spec: the chain of directories from `root` (inclusive)
down to `start_dir = root ++ rel` (inclusive), ancestor first. -/
def chainDirs (root : List String) (rel : List String) : List (List String) :=
  (List.range (rel.length + 1)).map (fun k => root ++ rel.take k)

namespace ProjectConfig

/-- Modelled from the spec: `ProjectConfig._find_all_config_files` (not under
the provided sources).  Starting at `root`, walk downward through the chain of
directories leading to `start_dir = root ++ rel` (both endpoints inclusive);
for each directory in the chain check whether a file named `FILE_NAME` exists
there, and collect its path if present, ancestors first.  `fs p` tells whether
a file exists at path `p`. -/
def find_all_config_files (fs : List String → Bool) (root : List String) :
    List String → List (List String)
  | [] =>
    if fs (root ++ [FILE_NAME]) then [root ++ [FILE_NAME]] else []
  | d :: rest =>
    (if fs (root ++ [FILE_NAME]) then [root ++ [FILE_NAME]] else [])
      ++ find_all_config_files fs (root ++ [d]) rest

/-- Modelled from the spec: `ProjectConfig.load_all` (not under the provided
sources).  Discover the configuration files on the chain from `root` to
`root ++ rel`, read each one's content through `contents`, parse them in
discovery order and merge their metadata; the tests pin the merge to
per-document replacement of the `tags` key. -/
def load_all (fs : List String → Bool) (contents : List String → RawDoc)
    (root : List String) (rel : List String) :
    Except ConfigParseError ProjectConfig :=
  load_all_docs ((find_all_config_files fs root rel).map contents)

end ProjectConfig

/-- Escape a string for inclusion in a JSON string literal (backslash and
double quote, the cases exercised by the configuration tags). -/
def jsonEscapeString (s : String) : String :=
  String.mk (s.toList.foldr
    (fun c acc =>
      if c = '\\' then '\\' :: '\\' :: acc
      else if c = '"' then '\\' :: '"' :: acc
      else c :: acc) [])

/-- Modelled from the spec: the canonical string encoding of one tag entry used
by `ProjectConfig.to_dict` — a bare scalar passes through verbatim, a
single-key pair becomes its minimal JSON object notation
(as asserted by test_projectconfig_todict). -/
def encodeTagEntry : TagEntry → String
  | TagEntry.scalar s => s
  | TagEntry.pair k v =>
    "\x7b\"" ++ jsonEscapeString k ++ "\": \"" ++ jsonEscapeString v ++ "\"\x7d"

/-- The canonical flat form returned by `to_dict`: a top-level object with the
single array-valued field `tags`, each element a string. -/
structure ProjectConfigDict where
  tags : List String
deriving DecidableEq, Repr

/-- Modelled from the spec: `ProjectConfig.to_dict` (not under the provided
sources) — project the merged tag sequence to all-string form, entrywise, in
order. -/
def ProjectConfig.to_dict (c : ProjectConfig) : ProjectConfigDict :=
  ⟨c.tags.map encodeTagEntry⟩

/-! ## Properties of the directory chain -/

theorem chainDirs_nil (root : List String) : chainDirs root [] = [root] := by
  simp [chainDirs]

theorem chainDirs_cons (root : List String) (d : String) (rest : List String) :
    chainDirs root (d :: rest) = root :: chainDirs (root ++ [d]) rest := by
  unfold chainDirs
  rw [List.length_cons, List.range_succ_eq_map, List.map_cons, List.map_map]
  simp [Function.comp_def, List.take_succ_cons]

theorem mem_chainDirs {b root : List String} {rel : List String} :
    b ∈ chainDirs root rel ↔ ∃ k, k ≤ rel.length ∧ root ++ rel.take k = b := by
  unfold chainDirs
  simp [List.mem_map, List.mem_range, Nat.lt_succ_iff]

theorem chainDirs_pairwise (root rel : List String) :
    List.Pairwise (fun a b : List String => a <+: b ∧ a.length < b.length)
      (chainDirs root rel) := by
  induction rel generalizing root with
  | nil => rw [chainDirs_nil]; exact List.pairwise_singleton _ _
  | cons d rest ih =>
    rw [chainDirs_cons]
    refine List.Pairwise.cons ?_ (ih (root ++ [d]))
    intro b hb
    rcases mem_chainDirs.mp hb with ⟨k, _, hk⟩
    constructor
    · exact ⟨d :: rest.take k, by rw [← hk]; simp⟩
    · rw [← hk]; simp

namespace ProjectConfig

/-- The discovery walk is exactly the chain filtered to directories holding the
reserved filename, ancestors first. -/
theorem find_all_config_files_eq_filter (fs : List String → Bool)
    (root rel : List String) :
    find_all_config_files fs root rel
      = ((chainDirs root rel).filter (fun d => fs (d ++ [FILE_NAME]))).map
          (fun d => d ++ [FILE_NAME]) := by
  induction rel generalizing root with
  | nil =>
    rw [chainDirs_nil]
    by_cases h : fs (root ++ [FILE_NAME]) <;>
      simp [find_all_config_files, List.filter_cons, h]
  | cons d rest ih =>
    rw [chainDirs_cons, List.filter_cons]
    by_cases h : fs (root ++ [FILE_NAME]) <;>
      simp [find_all_config_files, h, ih]

end ProjectConfig

/-- C2: For every chain of nested directories from `root` (inclusive) down to
`start_dir = root ++ rel` (inclusive), `find_all_config_files` returns exactly
the reserved-filename configuration files located at directories on that chain
(the chain filtered to directories whose config file exists, each mapped to its
config-file path), ordered from root toward `start_dir`: each earlier returned
path lies in a strict ancestor directory of each later one. -/
theorem claim_C2_find_all_exact_and_ordered (fs : List String → Bool)
    (root rel : List String) :
    ProjectConfig.find_all_config_files fs root rel
      = ((chainDirs root rel).filter
          (fun d => fs (d ++ [ProjectConfig.FILE_NAME]))).map
          (fun d => d ++ [ProjectConfig.FILE_NAME])
    ∧ List.Pairwise
        (fun p q : List String =>
          p.dropLast <+: q.dropLast ∧ p.dropLast.length < q.dropLast.length)
        (ProjectConfig.find_all_config_files fs root rel) := by
  refine ⟨ProjectConfig.find_all_config_files_eq_filter fs root rel, ?_⟩
  rw [ProjectConfig.find_all_config_files_eq_filter fs root rel]
  rw [List.pairwise_map]
  have hchain := chainDirs_pairwise root rel
  have hfilter : List.Pairwise (fun a b : List String => a <+: b ∧ a.length < b.length)
      ((chainDirs root rel).filter (fun d => fs (d ++ [ProjectConfig.FILE_NAME]))) :=
    List.Pairwise.sublist (List.filter_sublist _) hchain
  refine hfilter.imp ?_
  intro a b hab
  simpa [List.dropLast_concat] using hab

/-- C3: discovery never returns a path in a directory outside the chain from
`root` to `start_dir`, and two filesystems that agree on the chain's
reserved-filename paths (so differ only outside that chain, e.g. in sibling
subtrees) produce the same discovery sequence: a sibling's configuration file
never leaks into the result. -/
theorem claim_C3_sibling_noninterference (fs₁ fs₂ : List String → Bool)
    (root rel : List String)
    (h : ∀ d ∈ chainDirs root rel,
        fs₁ (d ++ [ProjectConfig.FILE_NAME]) = fs₂ (d ++ [ProjectConfig.FILE_NAME])) :
    ProjectConfig.find_all_config_files fs₁ root rel
      = ProjectConfig.find_all_config_files fs₂ root rel
    ∧ ∀ p ∈ ProjectConfig.find_all_config_files fs₁ root rel,
        ∃ d ∈ chainDirs root rel, p = d ++ [ProjectConfig.FILE_NAME] := by
  constructor
  · rw [ProjectConfig.find_all_config_files_eq_filter,
      ProjectConfig.find_all_config_files_eq_filter]
    rw [List.filter_congr h]
  · intro p hp
    rw [ProjectConfig.find_all_config_files_eq_filter] at hp
    rcases List.mem_map.mp hp with ⟨d, hd, rfl⟩
    exact ⟨d, (List.mem_filter.mp hd).1, rfl⟩

/-- Witness for C3 at a concrete monorepo layout: the second filesystem also
has a configuration file in the sibling directory `service2`, and the
discovery result from `service1` is unchanged. -/
theorem claim_C3_witness :
    ProjectConfig.find_all_config_files
        (fun p => decide (p = ["r", ".semgrepconfig"]
          ∨ p = ["r", "service1", ".semgrepconfig"])) ["r"] ["service1"]
      = ProjectConfig.find_all_config_files
        (fun p => decide (p = ["r", ".semgrepconfig"]
          ∨ p = ["r", "service1", ".semgrepconfig"]
          ∨ p = ["r", "service2", ".semgrepconfig"])) ["r"] ["service1"] :=
  (claim_C3_sibling_noninterference _ _ ["r"] ["service1"] (by decide)).1

/-- C8: the reserved per-directory configuration filename is exactly
`.semgrepconfig`: every returned path ends in that component, and a
configuration file at directory `d` is collected if and only if `d` lies on
the root-to-start_dir chain and the file `d/.semgrepconfig` exists. -/
theorem claim_C8_reserved_filename (fs : List String → Bool)
    (root rel : List String) :
    (∀ p ∈ ProjectConfig.find_all_config_files fs root rel,
        p.getLast? = some ProjectConfig.FILE_NAME)
    ∧ (∀ d : List String,
        d ++ [ProjectConfig.FILE_NAME] ∈ ProjectConfig.find_all_config_files fs root rel
          ↔ d ∈ chainDirs root rel ∧ fs (d ++ [ProjectConfig.FILE_NAME]) = true)
    ∧ ProjectConfig.FILE_NAME = ".semgrepconfig" := by
  refine ⟨?_, ?_, rfl⟩
  · intro p hp
    rw [ProjectConfig.find_all_config_files_eq_filter] at hp
    rcases List.mem_map.mp hp with ⟨d, _, rfl⟩
    exact List.getLast?_concat d
  · intro d
    rw [ProjectConfig.find_all_config_files_eq_filter]
    constructor
    · intro hmem
      rcases List.mem_map.mp hmem with ⟨d2, hd2, heq⟩
      have hd : d2 = d := List.append_cancel_right heq
      subst hd
      exact List.mem_filter.mp hd2
    · intro hmem
      exact List.mem_map.mpr ⟨d, List.mem_filter.mpr hmem, rfl⟩

/-- Witness for C8 at a concrete one-directory repository. -/
theorem claim_C8_witness :
    ([".semgrepconfig"] : List String).getLast? = some ProjectConfig.FILE_NAME :=
  (claim_C8_reserved_filename (fun p => decide (p = [".semgrepconfig"])) [] []).1
    [".semgrepconfig"] (by decide)

/-! ## Properties of parsing and merging -/

namespace ProjectConfig

theorem foldl_merge_metadata_of_all_none {l : List ConfigDocument}
    (h : ∀ x ∈ l, x = none) (acc : Option (List TagEntry)) :
    l.foldl merge_metadata acc = acc := by
  induction l generalizing acc with
  | nil => rfl
  | cons a t ih =>
    have ha : a = none := h a (List.mem_cons_self a t)
    subst ha
    exact ih (fun x hx => h x (List.mem_cons_of_mem _ hx)) acc

theorem merge_all_append_none (l₁ l₂ : List ConfigDocument) :
    merge_all (l₁ ++ none :: l₂) = merge_all (l₁ ++ l₂) := by
  unfold merge_all
  rw [List.foldl_append, List.foldl_append, List.foldl_cons]
  rfl

theorem parse_all_append (l₁ l₂ : List RawDoc) :
    parse_all (l₁ ++ l₂)
      = match parse_all l₁ with
        | Except.error e => Except.error e
        | Except.ok ds₁ =>
          match parse_all l₂ with
          | Except.error e => Except.error e
          | Except.ok ds₂ => Except.ok (ds₁ ++ ds₂) := by
  induction l₁ with
  | nil =>
    rw [List.nil_append]
    cases parse_all l₂ <;> rfl
  | cons a t ih =>
    rw [List.cons_append]
    cases ha : load_from_file a with
    | error e => simp only [parse_all, ha]
    | ok d =>
      simp only [parse_all, ha, ih]
      cases parse_all t <;> cases parse_all l₂ <;> rfl

theorem parse_all_error_of_mem {raws : List RawDoc} {r : RawDoc}
    {e : ConfigParseError} (hr : r ∈ raws)
    (he : load_from_file r = Except.error e) :
    ∃ e2, parse_all raws = Except.error e2 := by
  induction raws with
  | nil => cases hr
  | cons a t ih =>
    rcases List.mem_cons.mp hr with h1 | h1
    · subst h1
      exact ⟨e, by simp only [parse_all, he]⟩
    · cases ha : load_from_file a with
      | error ea => exact ⟨ea, by simp only [parse_all, ha]⟩
      | ok da =>
        rcases ih h1 with ⟨e2, h2⟩
        exact ⟨e2, by simp only [parse_all, ha, h2]⟩

theorem parse_all_ok_of_forall {p : List RawDoc}
    (hp : ∀ d ∈ p, ∃ o, load_from_file d = Except.ok o) :
    ∃ ds, parse_all p = Except.ok ds := by
  induction p with
  | nil => exact ⟨[], rfl⟩
  | cons a t ih =>
    rcases hp a (List.mem_cons_self a t) with ⟨o, ho⟩
    rcases ih (fun d hd => hp d (List.mem_cons_of_mem a hd)) with ⟨ds, hds⟩
    exact ⟨o :: ds, by simp only [parse_all, ho, hds]⟩

theorem parse_all_ok_none_of_forall {s : List RawDoc}
    (hs : ∀ d ∈ s, load_from_file d = Except.ok none) :
    ∃ ds, parse_all s = Except.ok ds ∧ ∀ x ∈ ds, x = (none : ConfigDocument) := by
  induction s with
  | nil => exact ⟨[], rfl, by simp⟩
  | cons a t ih =>
    have ha := hs a (List.mem_cons_self a t)
    rcases ih (fun d hd => hs d (List.mem_cons_of_mem a hd)) with ⟨ds, hds, hall⟩
    refine ⟨none :: ds, by simp only [parse_all, ha, hds], ?_⟩
    intro x hx
    rcases List.mem_cons.mp hx with h | h
    · exact h
    · exact hall x h

end ProjectConfig

/-- C4: `to_dict` projects the merged tag sequence entrywise to strings —
length and order preserved, bare scalars copied verbatim, single-key pairs
replaced by their minimal-JSON encoding — and on the concrete input of
test_projectconfig_todict it produces exactly the expected strings. -/
theorem claim_C4_to_dict_projection (entries : List TagEntry) :
    (ProjectConfig.to_dict ⟨some entries⟩).tags = entries.map encodeTagEntry
    ∧ (ProjectConfig.to_dict ⟨some entries⟩).tags.length = entries.length
    ∧ (∀ s, encodeTagEntry (TagEntry.scalar s) = s)
    ∧ ProjectConfig.to_dict
        ⟨some [TagEntry.pair "tag1" "value-1", TagEntry.scalar "tag2-as-string",
          TagEntry.pair "service" "service-1"]⟩
      = ⟨["\x7b\"tag1\": \"value-1\"\x7d", "tag2-as-string",
          "\x7b\"service\": \"service-1\"\x7d"]⟩ := by
  refine ⟨rfl, ?_, fun s => rfl, rfl⟩
  simp [ProjectConfig.to_dict, ProjectConfig.tags]

/-- C5: if any one discovered configuration file fails to parse, the whole
`load_all` fails with an error and no partially merged `ProjectConfig` is
produced. -/
theorem claim_C5_parse_failure_aborts (raws : List RawDoc) (r : RawDoc)
    (e : ConfigParseError) (hr : r ∈ raws)
    (he : ProjectConfig.load_from_file r = Except.error e) :
    ∃ e2, ProjectConfig.load_all_docs raws = Except.error e2 := by
  rcases ProjectConfig.parse_all_error_of_mem hr he with ⟨e2, h2⟩
  refine ⟨e2, ?_⟩
  unfold ProjectConfig.load_all_docs
  rw [h2]
  rfl

/-- Witness for C5: a chain whose second file has a non-array `tags` field
makes the whole load fail. -/
theorem claim_C5_witness :
    ∃ e2, ProjectConfig.load_all_docs
        [RawDoc.doc (some (RawTags.arr [])), RawDoc.doc (some RawTags.notArray)]
      = Except.error e2 :=
  claim_C5_parse_failure_aborts _ (RawDoc.doc (some RawTags.notArray))
    ConfigParseError.tagsNotArray (by decide) rfl

/-- C6: a configuration document that parses successfully but has no `tags`
key neither raises an error nor changes the merged tags: inserting it anywhere
in the discovered chain leaves the result of `load_all` unchanged. -/
theorem claim_C6_no_tags_key_is_neutral (pre post : List RawDoc) :
    ProjectConfig.load_from_file (RawDoc.doc none) = Except.ok none
    ∧ ProjectConfig.load_all_docs (pre ++ RawDoc.doc none :: post)
        = ProjectConfig.load_all_docs (pre ++ post) := by
  refine ⟨rfl, ?_⟩
  unfold ProjectConfig.load_all_docs
  rw [ProjectConfig.parse_all_append pre (RawDoc.doc none :: post),
    ProjectConfig.parse_all_append pre post]
  cases ProjectConfig.parse_all pre with
  | error e => rfl
  | ok ds₁ =>
    simp only [ProjectConfig.parse_all, ProjectConfig.load_from_file]
    cases ProjectConfig.parse_all post with
    | error e => rfl
    | ok ds₂ =>
      show (Except.ok (ProjectConfig.mk (ProjectConfig.merge_all (ds₁ ++ none :: ds₂)))
            : Except ConfigParseError ProjectConfig)
          = Except.ok (ProjectConfig.mk (ProjectConfig.merge_all (ds₁ ++ ds₂)))
      rw [ProjectConfig.merge_all_append_none]

/-- C7: a directory chain containing zero reserved-filename configuration
files makes `load_all` succeed with an empty merged tag sequence. -/
theorem claim_C7_empty_chain (fs : List String → Bool)
    (contents : List String → RawDoc) (root rel : List String)
    (h : ∀ d ∈ chainDirs root rel, fs (d ++ [ProjectConfig.FILE_NAME]) = false) :
    ProjectConfig.load_all fs contents root rel = Except.ok ⟨none⟩
    ∧ ProjectConfig.tags ⟨none⟩ = [] := by
  refine ⟨?_, rfl⟩
  unfold ProjectConfig.load_all
  rw [ProjectConfig.find_all_config_files_eq_filter]
  have hnil : (chainDirs root rel).filter
      (fun d => fs (d ++ [ProjectConfig.FILE_NAME])) = [] := by
    rw [List.filter_eq_nil_iff]
    intro a ha
    simp [h a ha]
  rw [hnil]
  rfl

/-- Witness for C7 on a two-directory chain with no configuration files. -/
theorem claim_C7_witness :
    ProjectConfig.load_all (fun _ => false) (fun _ => RawDoc.malformed)
      ["r"] ["a"] = Except.ok ⟨none⟩ :=
  (claim_C7_empty_chain (fun _ => false) (fun _ => RawDoc.malformed)
    ["r"] ["a"] (by intro d _; rfl)).1

/-! ## The merge order of load_all (C1) -/

/-- The root configuration's tag sequence from the unit tests (CONFIG_TAGS). -/
def testTagsRoot : List TagEntry :=
  [TagEntry.pair "tag1" "value-1", TagEntry.scalar "tag2-as-string"]

/-- The service1 configuration's tag sequence from the unit tests
(CONFIG_TAGS_MONOREPO_1). -/
def testTagsService1 : List TagEntry :=
  [TagEntry.pair "tag1" "value-1", TagEntry.scalar "tag2-as-string",
   TagEntry.pair "service" "service-1"]

/-- Counterexample to C1: on the two-file monorepo chain of
test_projectconfig_load_all_monorepo (root tags `T1`, then service1 tags `T2`),
`load_all` yields exactly `T2` — the deeper file's `tags` replaces the root's —
and not the concatenation `T1 ++ T2` the claim demands. -/
theorem claim_C1_counterexample :
    (ProjectConfig.load_all_docs
        [RawDoc.doc (some (RawTags.arr testTagsRoot)),
         RawDoc.doc (some (RawTags.arr testTagsService1))]).map ProjectConfig.tags
      = Except.ok testTagsService1
    ∧ (ProjectConfig.load_all_docs
        [RawDoc.doc (some (RawTags.arr testTagsRoot)),
         RawDoc.doc (some (RawTags.arr testTagsService1))]).map ProjectConfig.tags
      ≠ Except.ok (testTagsRoot ++ testTagsService1) := by
  have hval : (ProjectConfig.load_all_docs
      [RawDoc.doc (some (RawTags.arr testTagsRoot)),
       RawDoc.doc (some (RawTags.arr testTagsService1))]).map ProjectConfig.tags
      = Except.ok testTagsService1 := rfl
  refine ⟨hval, ?_⟩
  rw [hval]
  intro hcontra
  exact absurd (Except.ok.inj hcontra) (by decide)

/-- C1 as amended: `load_all` merges discovered files by replacement of the
`tags` key, so its tags equal the tag sequence of the last discovered file
that has a `tags` key (within-file order preserved); files after it without a
`tags` key change nothing. -/
theorem claim_C1_amended_last_tags_win (p s : List RawDoc) (ts : List TagEntry)
    (hp : ∀ d ∈ p, ∃ o, ProjectConfig.load_from_file d = Except.ok o)
    (hs : ∀ d ∈ s, ProjectConfig.load_from_file d = Except.ok none) :
    ∃ c : ProjectConfig,
      ProjectConfig.load_all_docs (p ++ RawDoc.doc (some (RawTags.arr ts)) :: s)
        = Except.ok c ∧ c.tags = ts := by
  rcases ProjectConfig.parse_all_ok_of_forall hp with ⟨ds₁, hds₁⟩
  rcases ProjectConfig.parse_all_ok_none_of_forall hs with ⟨ds₂, hds₂, hall⟩
  refine ⟨⟨some ts⟩, ?_, rfl⟩
  unfold ProjectConfig.load_all_docs
  rw [ProjectConfig.parse_all_append]
  rw [hds₁]
  simp only [ProjectConfig.parse_all, ProjectConfig.load_from_file, hds₂]
  show (Except.ok
        (ProjectConfig.mk (ProjectConfig.merge_all (ds₁ ++ some ts :: ds₂)))
      : Except ConfigParseError ProjectConfig)
      = Except.ok (ProjectConfig.mk (some ts))
  have hmerge : ProjectConfig.merge_all (ds₁ ++ some ts :: ds₂) = some ts := by
    unfold ProjectConfig.merge_all
    rw [List.foldl_append, List.foldl_cons]
    exact ProjectConfig.foldl_merge_metadata_of_all_none hall _
  rw [hmerge]

/-- Witness for the amended C1 on the monorepo chain, followed by a file with
no `tags` key: the service1 tags win. -/
theorem claim_C1_witness :
    ∃ c : ProjectConfig,
      ProjectConfig.load_all_docs
          [RawDoc.doc (some (RawTags.arr testTagsRoot)),
           RawDoc.doc (some (RawTags.arr testTagsService1)), RawDoc.doc none]
        = Except.ok c ∧ c.tags = testTagsService1 :=
  claim_C1_amended_last_tags_win
    [RawDoc.doc (some (RawTags.arr testTagsRoot))] [RawDoc.doc none]
    testTagsService1
    (by
      intro d hd
      rw [List.mem_singleton] at hd
      subst hd
      exact ⟨some testTagsRoot, rfl⟩)
    (by
      intro d hd
      rw [List.mem_singleton] at hd
      subst hd
      rfl)

/-! ## JSON values and json.dumps (src/cli/src/semgrep/formatter/json.py) -/

/-- A JSON value, as produced by the atdpy `to_json` methods and consumed by
`json.dumps`. -/
inductive Json where
  | null
  | bool (b : Bool)
  | num (n : Int)
  | str (s : String)
  | arr (items : List Json)
  | obj (entries : List (String × Json))
deriving Repr

/-- Key comparison used by `json.dumps(..., sort_keys=True)`: objects are
emitted with entries ordered by key. -/
def keyLe (a b : String × Json) : Bool := decide (a.1 ≤ b.1)

mutual

/-- Recursively sort every object's entries by key (the object traversal that
`sort_keys=True` performs at emission time). -/
def sortJson : Json → Json
  | Json.null => Json.null
  | Json.bool b => Json.bool b
  | Json.num n => Json.num n
  | Json.str s => Json.str s
  | Json.arr items => Json.arr (sortJsonList items)
  | Json.obj entries => Json.obj (List.mergeSort (sortJsonEntries entries) keyLe)

def sortJsonList : List Json → List Json
  | [] => []
  | x :: xs => sortJson x :: sortJsonList xs

def sortJsonEntries : List (String × Json) → List (String × Json)
  | [] => []
  | (k, v) :: xs => (k, sortJson v) :: sortJsonEntries xs

end

/-- Adjacent-pair key-ordering check for one object's key list. -/
def keysSortedB : List String → Bool
  | [] => true
  | [_] => true
  | a :: b :: t => decide (a ≤ b) && keysSortedB (b :: t)

mutual

/-- Every object, anywhere in the value, has its keys in (non-strictly)
sorted order. -/
def sortedKeysB : Json → Bool
  | Json.null => true
  | Json.bool _ => true
  | Json.num _ => true
  | Json.str _ => true
  | Json.arr items => sortedKeysListB items
  | Json.obj entries =>
    keysSortedB (entries.map Prod.fst) && sortedKeysEntriesB entries

def sortedKeysListB : List Json → Bool
  | [] => true
  | x :: xs => sortedKeysB x && sortedKeysListB xs

def sortedKeysEntriesB : List (String × Json) → Bool
  | [] => true
  | (_, v) :: xs => sortedKeysB v && sortedKeysEntriesB xs

end

mutual

/-- Emission of a JSON value in entry order, with Python `json.dumps` default
separators (a comma-space between items, a colon-space after each key). -/
def jsonDumpsRaw : Json → String
  | Json.null => "null"
  | Json.bool b => if b then "true" else "false"
  | Json.num n => toString n
  | Json.str s => "\"" ++ jsonEscapeString s ++ "\""
  | Json.arr items => "[" ++ jsonDumpsList items ++ "]"
  | Json.obj entries => "\x7b" ++ jsonDumpsEntries entries ++ "\x7d"

def jsonDumpsList : List Json → String
  | [] => ""
  | [x] => jsonDumpsRaw x
  | x :: xs => jsonDumpsRaw x ++ ", " ++ jsonDumpsList xs

def jsonDumpsEntries : List (String × Json) → String
  | [] => ""
  | [(k, v)] => "\"" ++ jsonEscapeString k ++ "\": " ++ jsonDumpsRaw v
  | (k, v) :: xs =>
    "\"" ++ jsonEscapeString k ++ "\": " ++ jsonDumpsRaw v ++ ", "
      ++ jsonDumpsEntries xs

end

/-- `json.dumps`: emit the value, with every object's entries ordered by key
when `sort_keys` is set. -/
def json_dumps (sort_keys : Bool) (v : Json) : String :=
  jsonDumpsRaw (if sort_keys then sortJson v else v)

/-! ## Sortedness of json.dumps with sort_keys -/

theorem keysSortedB_of_pairwise : ∀ {l : List String},
    List.Pairwise (fun a b => a ≤ b) l → keysSortedB l = true
  | [], _ => rfl
  | [_], _ => rfl
  | a :: b :: t, h => by
    rcases List.pairwise_cons.mp h with ⟨hab, ht⟩
    have h1 : a ≤ b := hab b (List.mem_cons_self b t)
    simp only [keysSortedB, Bool.and_eq_true, decide_eq_true_eq]
    exact ⟨h1, keysSortedB_of_pairwise ht⟩

theorem sortedKeysEntriesB_eq_all (l : List (String × Json)) :
    sortedKeysEntriesB l = l.all (fun p => sortedKeysB p.2) := by
  induction l with
  | nil => rfl
  | cons a t ih =>
    cases a with
    | mk k v => simp [sortedKeysEntriesB, ih]

theorem keyLe_trans : ∀ (a b c : String × Json),
    keyLe a b → keyLe b c → keyLe a c := by
  intro a b c hab hbc
  simp only [keyLe, decide_eq_true_eq] at *
  exact le_trans hab hbc

theorem keyLe_total : ∀ (a b : String × Json), keyLe a b || keyLe b a := by
  intro a b
  simp only [keyLe, Bool.or_eq_true, decide_eq_true_eq]
  exact le_total a.1 b.1

theorem all_true_of_perm {α : Type} {l₁ l₂ : List α} {f : α → Bool}
    (h : List.Perm l₁ l₂) (ha : l₂.all f = true) : l₁.all f = true := by
  rw [List.all_eq_true] at ha
  rw [List.all_eq_true]
  intro x hx
  exact ha x (h.subset hx)

mutual

theorem sortedKeysB_sortJson : ∀ v : Json, sortedKeysB (sortJson v) = true
  | Json.null => rfl
  | Json.bool b => rfl
  | Json.num n => rfl
  | Json.str s => rfl
  | Json.arr items => by
    simp only [sortJson, sortedKeysB]
    exact sortedKeysListB_sortJsonList items
  | Json.obj entries => by
    simp only [sortJson, sortedKeysB, Bool.and_eq_true]
    constructor
    · apply keysSortedB_of_pairwise
      rw [List.pairwise_map]
      have hs := @List.sorted_mergeSort _ keyLe keyLe_trans keyLe_total
        (sortJsonEntries entries)
      exact hs.imp (fun hab => by
        simpa only [keyLe, decide_eq_true_eq] using hab)
    · rw [sortedKeysEntriesB_eq_all]
      apply all_true_of_perm (List.mergeSort_perm (sortJsonEntries entries) keyLe)
      rw [← sortedKeysEntriesB_eq_all]
      exact sortedKeysEntriesB_sortJsonEntries entries

theorem sortedKeysListB_sortJsonList : ∀ l : List Json,
    sortedKeysListB (sortJsonList l) = true
  | [] => rfl
  | x :: xs => by
    simp only [sortJsonList, sortedKeysListB, Bool.and_eq_true]
    exact ⟨sortedKeysB_sortJson x, sortedKeysListB_sortJsonList xs⟩

theorem sortedKeysEntriesB_sortJsonEntries : ∀ l : List (String × Json),
    sortedKeysEntriesB (sortJsonEntries l) = true
  | [] => rfl
  | (k, v) :: xs => by
    simp only [sortJsonEntries, sortedKeysEntriesB, Bool.and_eq_true]
    exact ⟨sortedKeysB_sortJson v, sortedKeysEntriesB_sortJsonEntries xs⟩

end

/-! ## The JsonFormatter (src/cli/src/semgrep/formatter/json.py) -/

/-- Strip trailing whitespace, as Python's `str.rstrip()`. -/
def rstrip (s : String) : String :=
  String.mk (s.toList.reverse.dropWhile Char.isWhitespace).reverse

/-- One optional atdpy field: emitted only when the value is present. -/
def optField (name : String) : Option Json → List (String × Json)
  | none => []
  | some v => [(name, v)]

/-- Modelled from the spec: a semgrep rule, an external input that
`JsonFormatter.format` receives and does not read. -/
structure Rule where
  json : Json

/-- Modelled from the spec: the `extra` of a core match
(`rule_match.match.extra`), carrying metavars, engine kind and validation
state; `semgrep.rule_match` is not under the provided sources. -/
structure CoreMatchExtra where
  metavars : Json
  engine_kind : Json
  validation_state : Option Json

/-- Modelled from the spec: the core match behind a rule match
(`rule_match.match`). -/
structure CoreMatch where
  extra : CoreMatchExtra

/-- Modelled from the spec: the free-form `extra` dictionary of a rule match,
restricted to the keys `JsonFormatter._rule_match_to_CliMatch` reads
(`sca_info`, `fixed_lines`, `extra_extra`); `none` models an absent or falsy
entry. -/
structure RuleMatchExtra where
  sca_info : Option Json
  fixed_lines : Option Json
  extra_extra : Option Json

/-- Modelled from the spec: the fields of `semgrep.rule_match.RuleMatch` that
`JsonFormatter._rule_match_to_CliMatch` reads; the class itself is not under
the provided sources. -/
structure RuleMatch where
  rule_id : String
  path : String
  start : Json
  «end» : Json
  message : String
  metadata : Json
  severity : String
  match_based_id : String
  lines : List String
  «match» : CoreMatch
  dataflow_trace : Option Json
  fix : Option String
  fix_regex : Option Json
  is_ignored : Option Bool
  extra : RuleMatchExtra

/-- The `CliMatchExtra` record built by `_rule_match_to_CliMatch`; optional
fields are absent unless set. -/
structure CliMatchExtra where
  message : String
  metadata : Json
  severity : String
  fingerprint : String
  lines : String
  metavars : Json
  dataflow_trace : Option Json
  engine_kind : Json
  validation_state : Option Json
  sca_info : Option Json
  fixed_lines : Option Json
  fix : Option String
  fix_regex : Option Json
  is_ignored : Option Bool
  extra_extra : Option Json

/-- The per-finding `CliMatch` record of the public output schema. -/
structure CliMatch where
  check_id : String
  path : String
  start : Json
  «end» : Json
  extra : CliMatchExtra

/-- Modelled from the spec: a structured semgrep error, carrying its
`CliError` JSON form (`semgrep.error` is not under the provided sources). -/
structure SemgrepError where
  cli_error : Json

/-- `SemgrepError.to_CliError`, as invoked by `JsonFormatter.format`. -/
def SemgrepError.to_CliError (e : SemgrepError) : Json := e.cli_error

/-- The `CliOutputExtra` fields that `JsonFormatter.format` copies into the
output (`paths`, `time`, `explanations`). -/
structure CliOutputExtra where
  paths : Json
  time : Option Json
  explanations : Option Json

/-- The `CliOutput` record assembled by `JsonFormatter.format`. -/
structure CliOutput where
  version : String
  results : List CliMatch
  errors : List Json
  paths : Json
  time : Option Json
  explanations : Option Json
  skipped_rules : List Json

/-- Modelled from the spec: `semgrep.__VERSION__`, the CLI version string; its
concrete value is immaterial to the properties proved here. -/
def SEMGREP_VERSION : String := "develop"

/-- atdpy `to_json` of `CliMatchExtra`: required fields always present,
optional fields present only when set. -/
def CliMatchExtra.to_json (e : CliMatchExtra) : Json :=
  Json.obj
    ([("message", Json.str e.message),
      ("metadata", e.metadata),
      ("severity", Json.str e.severity),
      ("fingerprint", Json.str e.fingerprint),
      ("lines", Json.str e.lines),
      ("metavars", e.metavars)]
      ++ optField "dataflow_trace" e.dataflow_trace
      ++ [("engine_kind", e.engine_kind)]
      ++ optField "validation_state" e.validation_state
      ++ optField "sca_info" e.sca_info
      ++ optField "fixed_lines" e.fixed_lines
      ++ optField "fix" (e.fix.map Json.str)
      ++ optField "fix_regex" e.fix_regex
      ++ optField "is_ignored" (e.is_ignored.map Json.bool)
      ++ optField "extra_extra" e.extra_extra)

/-- atdpy `to_json` of `CliMatch`. -/
def CliMatch.to_json (m : CliMatch) : Json :=
  Json.obj
    [("check_id", Json.str m.check_id),
     ("path", Json.str m.path),
     ("start", m.start),
     ("end", m.«end»),
     ("extra", m.extra.to_json)]

/-- atdpy `to_json` of `CliOutput`. -/
def CliOutput.to_json (o : CliOutput) : Json :=
  Json.obj
    ([("version", Json.str o.version),
      ("results", Json.arr (o.results.map CliMatch.to_json)),
      ("errors", Json.arr o.errors),
      ("paths", o.paths)]
      ++ optField "time" o.time
      ++ optField "explanations" o.explanations
      ++ [("skipped_rules", Json.arr o.skipped_rules)])

namespace JsonFormatter

/-- `JsonFormatter._rule_match_to_CliMatch`: build the `CliMatchExtra` from
the rule match's fields (joined lines right-stripped, fingerprint from the
match-based id), set the optional fields only when present, and wrap into a
`CliMatch`. -/
def rule_match_to_CliMatch (rule_match : RuleMatch) : CliMatch :=
  let extra : CliMatchExtra :=
    { message := rule_match.message
      metadata := rule_match.metadata
      severity := rule_match.severity
      fingerprint := rule_match.match_based_id
      lines := rstrip (String.join rule_match.lines)
      metavars := rule_match.«match».extra.metavars
      dataflow_trace := rule_match.dataflow_trace
      engine_kind := rule_match.«match».extra.engine_kind
      validation_state := rule_match.«match».extra.validation_state
      sca_info := rule_match.extra.sca_info
      fixed_lines := rule_match.extra.fixed_lines
      fix := rule_match.fix
      fix_regex := rule_match.fix_regex
      is_ignored := rule_match.is_ignored
      extra_extra := rule_match.extra.extra_extra }
  { check_id := rule_match.rule_id
    path := rule_match.path
    start := rule_match.start
    «end» := rule_match.«end»
    extra := extra }

/-- `JsonFormatter.format`: assemble the `CliOutput` (version, converted
results, converted errors, the paths/time/explanations of
`cli_output_extra`, empty `skipped_rules`) and serialize it with
`json.dumps(..., sort_keys=True)`.  The `rules`, `extra` and
`is_ci_invocation` arguments are received but not used. -/
def format (rules : List Rule) (rule_matches : List RuleMatch)
    (semgrep_structured_errors : List SemgrepError)
    (cli_output_extra : CliOutputExtra) (extra : List (String × Json))
    (is_ci_invocation : Bool) : String :=
  let output : CliOutput :=
    { version := SEMGREP_VERSION
      results := rule_matches.map rule_match_to_CliMatch
      errors := semgrep_structured_errors.map SemgrepError.to_CliError
      paths := cli_output_extra.paths
      time := cli_output_extra.time
      explanations := cli_output_extra.explanations
      skipped_rules := [] }
  json_dumps true (CliOutput.to_json output)

end JsonFormatter

/-- C9: `JsonFormatter.format` is deterministic — two calls on equal inputs
return the identical string — and its output is canonically ordered: the
returned string is the serialization (in emission order) of a JSON value in
which every object's keys appear in sorted order. -/
theorem claim_C9_deterministic_sorted_output (rules : List Rule)
    (rule_matches : List RuleMatch)
    (semgrep_structured_errors : List SemgrepError)
    (cli_output_extra : CliOutputExtra) (extra : List (String × Json))
    (is_ci_invocation : Bool) :
    JsonFormatter.format rules rule_matches semgrep_structured_errors
        cli_output_extra extra is_ci_invocation
      = JsonFormatter.format rules rule_matches semgrep_structured_errors
        cli_output_extra extra is_ci_invocation
    ∧ ∃ j : Json,
        JsonFormatter.format rules rule_matches semgrep_structured_errors
            cli_output_extra extra is_ci_invocation = jsonDumpsRaw j
          ∧ sortedKeysB j = true := by
  constructor
  · rfl
  · refine ⟨sortJson (CliOutput.to_json
      { version := SEMGREP_VERSION
        results := rule_matches.map JsonFormatter.rule_match_to_CliMatch
        errors := semgrep_structured_errors.map SemgrepError.to_CliError
        paths := cli_output_extra.paths
        time := cli_output_extra.time
        explanations := cli_output_extra.explanations
        skipped_rules := [] }), rfl, sortedKeysB_sortJson _⟩

/-- C10: the output of `JsonFormatter.format` does not depend on its `extra`
argument — two invocations differing only in `extra` return equal strings. -/
theorem claim_C10_extra_not_used (rules : List Rule)
    (rule_matches : List RuleMatch)
    (semgrep_structured_errors : List SemgrepError)
    (cli_output_extra : CliOutputExtra)
    (extra₁ extra₂ : List (String × Json)) (is_ci_invocation : Bool) :
    JsonFormatter.format rules rule_matches semgrep_structured_errors
        cli_output_extra extra₁ is_ci_invocation
      = JsonFormatter.format rules rule_matches semgrep_structured_errors
        cli_output_extra extra₂ is_ci_invocation := rfl
